import Mathlib

/-
Shallow embedding of the MusicNetwork graph-layout program (script.js,
first — most feature-complete — revision of the class).

Conventions of the embedding:
* JS numbers are modelled by exact rationals (ℚ); the claims under study are
  about the real-number semantics of the formulas, not about IEEE rounding.
* `Math.sqrt` is an abstract parameter `sq : ℚ → ℚ`; theorems that need facts
  about it take them as hypotheses, and concrete witness runs instantiate it
  with `ratSqrt`, a fueled integer-bisection square root that is exact on
  perfect squares (every square-root argument arising in the witness runs is
  a perfect square of a rational, so the witness runs compute exactly the
  values the JS program computes).
* JS strings are `String` for identifiers/kinds and `List Char` for searched
  text (so lower-casing and substring search are explicit).
* The per-entity spreadsheet record (`node.data`) is modelled by the list of
  its string field values in object order plus one flag saying whether a
  name-like field (artistName / firstName / names) is present and non-blank;
  that is the only information the program reads from it in the functions
  under study.
* JS `Map`s keyed by node id are modelled as total functions from id, updated
  pointwise — like a JS map, two list entries sharing an id share one slot.
* Randomness (`Math.random()`) is an explicit input stream `rnd : ℕ → ℚ`,
  consumed in call order.
-/

namespace MusicNetwork

/-- Fueled integer square root by bisection (helper for instantiating the
abstract square-root parameter; exact on perfect squares, fuel 64 suffices
for every argument below 2^64). -/
def isqrtGo : ℕ → ℕ → ℕ → ℕ → ℕ
  | 0, _, lo, _ => lo
  | fuel + 1, n, lo, hi =>
    if lo = hi then lo
    else
      let mid := (lo + hi + 1) / 2
      if mid * mid ≤ n then isqrtGo fuel n mid hi else isqrtGo fuel n lo (mid - 1)

/-- Integer square root with fuel 64. -/
def isqrtN (n : ℕ) : ℕ := isqrtGo 64 n 0 n

/-- Concrete square root on ℚ, exact whenever numerator and denominator are
perfect squares (the case for every argument in the concrete runs below). -/
def ratSqrt (q : ℚ) : ℚ := (isqrtN q.num.toNat : ℚ) / (isqrtN q.den : ℚ)

/-- The string field values of a raw spreadsheet record (`node.data`), plus
whether a name-like field is present (used by the `isPersonNode` fallback). -/
structure PersonData where
  vals : List (List Char)
  nameHint : Bool
deriving DecidableEq

/-- A graph node: `id`, primary `type`, optional role array `types` (empty
list = absent), display `label`, optional raw record, mutable position.
`posDef` models `typeof n.x === 'number'` (position defined). -/
structure Node where
  id : String
  ntype : String
  types : List String
  label : List Char
  pdata : Option PersonData
  x : ℚ
  y : ℚ
  posDef : Bool
deriving DecidableEq

/-- A raw edge: endpoint ids and relationship kind. -/
structure Conn where
  cfrom : String
  cto : String
  ctype : String
deriving DecidableEq

/-- A resolved edge reference (`buildIndexes` output): endpoints resolved via
the id→node map, `null` (= `none`) when the id does not resolve. -/
structure CRef where
  fromN : Option Node
  toN : Option Node
  rtype : String
deriving DecidableEq

/-- The program state the claims are about: node and edge collections, the
per-kind visibility toggles (`visibleTypes`) and the search term. -/
structure NetState where
  nodes : List Node
  connections : List Conn
  visibleTypes : List (String × Bool)
  searchTerm : List Char
deriving DecidableEq

/-- `this.visibleTypes.hasOwnProperty(t) ? this.visibleTypes[t] : true`. -/
def toggleLookup (ts : List (String × Bool)) (k : String) : Bool :=
  match ts.find? (fun p => p.1 == k) with
  | some p => p.2
  | none => true

/-- `String.prototype.toLowerCase`, characterwise. -/
def lowerStr (s : List Char) : List Char := s.map Char.toLower

/-- JS string truthiness (`if (node.label)`): non-empty. -/
def strTruthy (s : List Char) : Bool := !s.isEmpty

/-- Truthiness of `val.trim()`: some non-whitespace character present. -/
def strTrimTruthy (s : List Char) : Bool := s.any (fun c => !c.isWhitespace)

/-- Role kinds accepted by `isPersonNode` from the `types` array. -/
def personTypeList : List String := ["artist", "dj", "other"]

/-- Primary kinds accepted by `isPersonNode` from the `type` field. -/
def personPrimaryList : List String := ["artist", "dj", "both", "other"]

/-- `isPersonNode` (script.js): requires raw data; then role array, primary
type, or a name-like field decides person-likeness. -/
def isPersonNode (n : Node) : Bool :=
  match n.pdata with
  | none => false
  | some d =>
    n.types.any (fun t => personTypeList.contains t)
      || personPrimaryList.contains n.ntype
      || d.nameHint

/-- `_nodeSearchHaystack`: lower-cased label (when truthy), then — for
person-like nodes with data — the lower-cased non-blank string field values. -/
def nodeSearchHaystack (n : Node) : List (List Char) :=
  (if strTruthy n.label then [lowerStr n.label] else [])
    ++ (match n.pdata with
        | some d =>
          if isPersonNode n then (d.vals.filter strTrimTruthy).map lowerStr else []
        | none => [])

/-- `this.nodeMap.get(id)`: a JS `Map` built from the node list keeps the
last entry per key, hence the reversed search. -/
def nodeMapGet (nodes : List Node) (i : String) : Option Node :=
  nodes.reverse.find? (fun n => n.id == i)

/-- `buildIndexes`: resolve every connection's endpoints through the id map
(`null` when absent); one ref per raw connection, never dropping any. -/
def connectionRefs (st : NetState) : List CRef :=
  st.connections.map (fun c =>
    ⟨nodeMapGet st.nodes c.cfrom, nodeMapGet st.nodes c.cto, c.ctype⟩)

/-- `text.includes(term)`: `hasSubstr text term` is true iff `term` occurs
contiguously inside `text`. -/
def hasSubstr : List Char → List Char → Bool
  | [], t => t.isEmpty
  | c :: rest, t => t.isPrefixOf (c :: rest) || hasSubstr rest t

/-- The match set of `applySearchFilter`: ids of nodes whose haystack
contains the lower-cased term as a substring. -/
def matchedIds (st : NetState) : List String :=
  let term := lowerStr st.searchTerm
  (st.nodes.filter (fun n =>
    (nodeSearchHaystack n).any (fun t => hasSubstr t term))).map (fun n => n.id)

/-- One-hop expansion of the match set along fully resolved refs (membership
is what matters; the JS `Set` is modelled as a list with `contains`). -/
def expandedIds (st : NetState) : List String :=
  let m := matchedIds st
  (connectionRefs st).foldl
    (fun acc cr =>
      match cr.fromN, cr.toN with
      | some a, some b =>
        (acc ++ (if m.contains a.id then [b.id] else []))
          ++ (if m.contains b.id then [a.id] else [])
      | _, _ => acc)
    m

/-- `applySearchFilter`'s net effect on `this.filteredNodeIds`:
`none` = `null` (no term), `some []` = empty `Set` (no hits). -/
def filteredIds (st : NetState) : Option (List String) :=
  if lowerStr st.searchTerm = [] then none
  else if matchedIds st = [] then some []
  else some (expandedIds st)

/-- Type-toggle visibility: any enabled role from `types` when present,
else the primary type's toggle. -/
def typeVisible (st : NetState) (n : Node) : Bool :=
  if !n.types.isEmpty then n.types.any (toggleLookup st.visibleTypes)
  else toggleLookup st.visibleTypes n.ntype

/-- `isNodeVisible`: with no active search (or a null filter) the toggle
decides; under an active search, membership in `filteredNodeIds` decides
(the two trailing `return true` branches of the source collapse to that). -/
def isNodeVisible (st : NetState) (n : Node) : Bool :=
  let tv := typeVisible st n
  if st.searchTerm.isEmpty then tv
  else
    match filteredIds st with
    | none => tv
    | some ids => ids.contains n.id

/-- The visible node set. -/
def visibleNodes (st : NetState) : List Node :=
  st.nodes.filter (isNodeVisible st)

/-! ### The force-directed layout engine (`runLayout`) -/

/-- The tuning-parameter bundle (`this.tuning`; iteration count passed
separately, as in `runLayout(iterations)`). -/
structure Tuning where
  repulsion : ℚ
  attraction : ℚ
  gravity : ℚ
  sameTypeRepel : ℚ
  minDistance : ℚ
deriving DecidableEq

/-- The constructor defaults. -/
def defaultTuning : Tuning :=
  { repulsion := 3/100, attraction := 8/10, gravity := 1/2
    sameTypeRepel := 55/100, minDistance := 40 }

/-- Membership in the layout set: visible, or — with no search term —
primary type `dj` even when toggled off. -/
def layoutPred (st : NetState) (n : Node) : Bool :=
  isNodeVisible st n || (st.searchTerm.isEmpty && n.ntype == "dj")

/-- `layoutNodes`, the working subset of a run. -/
def layoutNodesOf (st : NetState) : List Node := st.nodes.filter (layoutPred st)

/-- `Math.sqrt(dx*dx + dy*dy) || 0.001`: every distance used as a divisor,
floored to the epsilon `0.001` when the square root returns `0`.  The same
shape also floors the force magnitude (`Math.sqrt(fx*fx + fy*fy) || 0.001`). -/
def floorDist (sq : ℚ → ℚ) (dx dy : ℚ) : ℚ :=
  let d := sq (dx * dx + dy * dy)
  if d = 0 then 1/1000 else d

/-- Pointwise update of an id-keyed force map. -/
def updF (f : String → ℚ × ℚ) (key : String) (g : ℚ × ℚ → ℚ × ℚ) : String → ℚ × ℚ :=
  fun i => if i = key then g (f key) else f i

/-- The pair ordering of the JS double loop: `i` outer ascending, `j` inner
from `i+1` ascending. -/
def pairsUpTo (n : ℕ) : List (ℕ × ℕ) :=
  (List.range n).flatMap (fun i =>
    ((List.range n).filter (fun j => i < j)).map (fun j => (i, j)))

/-- The pairwise repulsion magnitude of the source:
`repulse = repulsionFactor * (k * k) / (dist * (1 + sameTypeBonus))` — note
that the same-type bonus sits in the *denominator*. -/
def repulseMag (repF kC bonus dist : ℚ) : ℚ :=
  repF * (kC * kC) / (dist * (1 + bonus))

/-- One pairwise repulsion contribution: the bonus is active when both
primary types are equal and `artist` or `dj`. -/
def repulseUpdate (sq : ℚ → ℚ) (repF kC sameRep : ℚ) (ns : List Node)
    (f : String → ℚ × ℚ) (ij : ℕ × ℕ) : String → ℚ × ℚ :=
  match ns[ij.1]?, ns[ij.2]? with
  | some a, some b =>
    let dx := b.x - a.x
    let dy := b.y - a.y
    let dist := floorDist sq dx dy
    let bonus : ℚ :=
      if a.ntype = b.ntype ∧ (a.ntype = "artist" ∨ a.ntype = "dj") then sameRep else 0
    let rep := repulseMag repF kC bonus dist
    let fx := dx / dist * rep
    let fy := dy / dist * rep
    let f1 := updF f a.id (fun p => (p.1 - fx, p.2 - fy))
    updF f1 b.id (fun p => (p.1 + fx, p.2 + fy))
  | _, _ => f

/-- The repulsion phase of one iteration: fold the pair loop over the force
map (positions are only read here). -/
def repulsePhase (sq : ℚ → ℚ) (repF kC sameRep : ℚ) (ns : List Node)
    (f0 : String → ℚ × ℚ) : String → ℚ × ℚ :=
  (pairsUpTo ns.length).foldl (repulseUpdate sq repF kC sameRep ns) f0

/-- The resolved-and-visible edge list of a run (`conns` in the source):
refs with both endpoints resolved and both ids in the layout set. -/
def layoutConns (st : NetState) (layoutIds : List String) : List CRef :=
  (connectionRefs st).filter (fun cr =>
    match cr.fromN, cr.toN with
    | some a, some b => layoutIds.contains a.id && layoutIds.contains b.id
    | _, _ => false)

/-- One edge-attraction contribution (`attraction = dist² / k * strength`,
with the 0.25 dampener when both endpoints are person-primary). -/
def attractUpdate (sq : ℚ → ℚ) (attrB kC : ℚ)
    (f : String → ℚ × ℚ) (cr : CRef) : String → ℚ × ℚ :=
  match cr.fromN, cr.toN with
  | some a, some b =>
    let dx := b.x - a.x
    let dy := b.y - a.y
    let dist := floorDist sq dx dy
    let typeStrength : ℚ :=
      if cr.rtype = "location" ∨ cr.rtype = "genre" ∨ cr.rtype = "collective"
      then 9/10 else 6/10
    let bothArtists :=
      (a.ntype = "artist" ∨ a.ntype = "dj") ∧ (b.ntype = "artist" ∨ b.ntype = "dj")
    let strength := typeStrength * (if bothArtists then 1/4 else 1) * attrB
    let attr := dist * dist / kC * strength
    let fx := dx / dist * attr
    let fy := dy / dist * attr
    let f1 := updF f a.id (fun p => (p.1 + fx, p.2 + fy))
    updF f1 b.id (fun p => (p.1 - fx, p.2 - fy))
  | _, _ => f

/-- The gravity phase: pull toward the virtual layout center, weighted by
`0.5 + centrality * 0.8` with `centrality = degree / maxDegree`. -/
def gravityPhase (sq : ℚ → ℚ) (gBase cX cY maxDeg : ℚ) (deg : String → ℕ)
    (ns : List Node) (f0 : String → ℚ × ℚ) : String → ℚ × ℚ :=
  ns.foldl
    (fun f n =>
      let centrality := (deg n.id : ℚ) / maxDeg
      let g := gBase * (1/2 + centrality * (8/10))
      let dx := cX - n.x
      let dy := cY - n.y
      let dist := floorDist sq dx dy
      updF f n.id (fun p => (p.1 + dx / dist * g * dist, p.2 + dy / dist * g * dist)))
    f0

/-- The integration phase: displacement capped by the temperature, then the
per-iteration clamp (desktop: inside the layout area with a 10px margin;
mobile: canvas plus generous margins, rounded as in the source). -/
def integratePhase (sq : ℚ → ℚ) (temp lw lh : ℚ) (isMobile : Bool)
    (width height : ℚ) (f : String → ℚ × ℚ) (ns : List Node) : List Node :=
  ns.map (fun n =>
    let p := f n.id
    let fmag := floorDist sq p.1 p.2
    let dx := p.1 / fmag * min fmag temp
    let dy := p.2 / fmag * min fmag temp
    let x1 := n.x + dx
    let y1 := n.y + dy
    if !isMobile then
      { n with x := max 10 (min (lw - 10) x1), y := max 10 (min (lh - 10) y1) }
    else
      let horizMargin : ℚ := max 250 ((round (width * (55/100)) : ℤ) : ℚ)
      let vertMargin : ℚ := max 140 ((round (height * (35/100)) : ℤ) : ℚ)
      { n with x := max (-horizMargin) (min (width + horizMargin) x1),
               y := max (-vertMargin) (min (height + vertMargin) y1) })

/-- One full force iteration: zeroed force map, repulsion, attraction,
gravity, then integration with the linearly decaying temperature. -/
def iterStep (sq : ℚ → ℚ) (repF attrB gBase kC sameRep lw lh : ℚ)
    (isMobile : Bool) (width height : ℚ) (iterations : ℕ) (deg : String → ℕ)
    (conns : List CRef) (ns : List Node) (iter : ℕ) : List Node :=
  let f0 : String → ℚ × ℚ := fun _ => (0, 0)
  let f1 := repulsePhase sq repF kC sameRep ns f0
  let f2 := conns.foldl (attractUpdate sq attrB kC) f1
  let maxDeg : ℚ := (ns.map (fun n => (deg n.id : ℚ))).foldl max 1
  let f3 := gravityPhase sq gBase (lw / 2) (lh / 2) maxDeg deg ns f2
  let temp : ℚ :=
    max 1 ((1 - (iter : ℚ) / (iterations : ℚ)) * min width height * (8/100))
  integratePhase sq temp lw lh isMobile width height f3 ns

/-- Position seeding: undefined positions are placed uniformly in the layout
area, then every node receives the ±1px jitter; the random stream is consumed
in call order (two draws per branch taken). -/
def seedNodes (rnd : ℕ → ℚ) (lw lh : ℚ) : List Node → ℕ → List Node × ℕ
  | [], k => ([], k)
  | n :: rest, k =>
    let step1 : Node × ℕ :=
      if n.posDef then (n, k)
      else ({ n with x := rnd k * lw, y := rnd (k + 1) * lh, posDef := true }, k + 2)
    let n2 := { step1.1 with
                x := step1.1.x + (rnd step1.2 - 1/2) * 2,
                y := step1.1.y + (rnd (step1.2 + 1) - 1/2) * 2 }
    let rest2 := seedNodes rnd lw lh rest (step1.2 + 2)
    (n2 :: rest2.1, rest2.2)

/-- One sequential overlap correction of the spacing pass: a pair closer
than `minDist` is pushed apart by half the overlap on each side (no motion
at exactly coincident positions, where `ux = uy = 0`). -/
def spacingPair (sq : ℚ → ℚ) (minDist : ℚ) (ns : List Node) (ij : ℕ × ℕ) : List Node :=
  match ns[ij.1]?, ns[ij.2]? with
  | some a, some b =>
    let dx := b.x - a.x
    let dy := b.y - a.y
    let dist := floorDist sq dx dy
    if dist < minDist then
      let overlap := (minDist - dist) / 2
      let ux := dx / dist
      let uy := dy / dist
      let a2 := { a with x := a.x - ux * overlap, y := a.y - uy * overlap }
      let b2 := { b with x := b.x + ux * overlap, y := b.y + uy * overlap }
      (ns.set ij.1 a2).set ij.2 b2
    else ns
  | _, _ => ns

/-- One spacing-relaxation pass over all pairs (in-place, sequential — later
pairs see the updates of earlier ones, as in the source). -/
def spacingPass (sq : ℚ → ℚ) (minDist : ℚ) (ns : List Node) : List Node :=
  (pairsUpTo ns.length).foldl (spacingPair sq minDist) ns

/-- The desktop-only final clamp with the 40px padding. -/
def clampPad (lw lh : ℚ) (n : Node) : Node :=
  { n with x := max 40 (min (lw - 40) n.x), y := max 40 (min (lh - 40) n.y) }

/-- One step of the degree fold: `if (degree.has(c.from)) degree.set(c.from,
get+1)` and then the same for `c.to` — the slot is bumped whenever that
endpoint id is in the layout set; the other endpoint is not consulted. -/
def degreeBump (layoutIds : List String) (d : String → ℕ) (c : Conn) : String → ℕ :=
  let d1 : String → ℕ :=
    fun i => if layoutIds.contains c.cfrom ∧ i = c.cfrom then d i + 1 else d i
  fun i => if layoutIds.contains c.cto ∧ i = c.cto then d1 i + 1 else d1 i

/-- The per-run degree map: fold over the *raw* connection list. -/
def degreeMap (conns : List Conn) (layoutIds : List String) : String → ℕ :=
  conns.foldl (degreeBump layoutIds) (fun _ => 0)

/-- The layout area width/height (`desktopLayoutMultiplier = 3`,
`mobileLayoutMultiplier = 1.8`). -/
def layoutW (isMobile : Bool) (width : ℚ) : ℚ :=
  if isMobile then width * (18/10) else width * 3

/-- The run's effective minimum spacing
(`isMobile ? Math.max(55, Math.round(baseMinDist * 1.2)) : baseMinDist`). -/
def effMinDist (isMobile : Bool) (base : ℚ) : ℚ :=
  if isMobile then max 55 ((round (base * (12/10)) : ℤ) : ℚ) else base

/-- The numeric pipeline of a run on the layout list: seeding, the force
iterations, the spacing passes and the desktop-only final clamp. -/
def layoutPipeline (sq : ℚ → ℚ) (rnd : ℕ → ℚ) (t : Tuning) (iterations : ℕ)
    (isMobile : Bool) (width height : ℚ) (st : NetState) (lns : List Node) :
    List Node :=
  let layoutIds := lns.map (fun n => n.id)
  let deg := degreeMap st.connections layoutIds
  let lw := layoutW isMobile width
  let lh := layoutW isMobile height
  let seeded := (seedNodes rnd lw lh lns 0).1
  let kC := sq (lw * lh / max 1 (lns.length : ℚ)) * (if isMobile then 115/100 else 65/100)
  let repF := t.repulsion * (if isMobile then 18/10 else 1)
  let attrB := t.attraction * (if isMobile then 8/10 else 1)
  let gBase := if isMobile then t.gravity * (1/2) else t.gravity
  let conns := layoutConns st layoutIds
  let afterIter := (List.range iterations).foldl
    (iterStep sq repF attrB gBase kC t.sameTypeRepel lw lh isMobile width height
      iterations deg conns) seeded
  let passes : ℕ := if isMobile then 8 else 4
  let afterSpacing :=
    (List.range passes).foldl
      (fun ns _ => spacingPass sq (effMinDist isMobile t.minDistance) ns) afterIter
  if isMobile then afterSpacing else afterSpacing.map (clampPad lw lh)

/-- `runLayout` past its scheduling guards: empty-collection and
empty-layout-set early returns, then the numeric pipeline, writing the new
positions back into the node collection (`fitToScreen` only touches the
camera, never positions, and is modelled separately). -/
def runLayout (sq : ℚ → ℚ) (rnd : ℕ → ℚ) (t : Tuning) (iterations : ℕ)
    (isMobile : Bool) (width height : ℚ) (st : NetState) : NetState :=
  if st.nodes.isEmpty then st
  else if (layoutNodesOf st).isEmpty then st
  else
    let finalNs := layoutPipeline sq rnd t iterations isMobile width height st
      (layoutNodesOf st)
    { st with nodes := st.nodes.map (fun n =>
        if layoutPred st n then (finalNs.find? (fun m => m.id == n.id)).getD n else n) }

/-! ### The viewport fitter (`fitToScreen`) -/

/-- The available width/height of `fitToScreen`: container minus margins
(80px mobile, 100px desktop), the desktop doubling the nominal area. -/
def fitAvail (isMobile : Bool) (c : ℚ) : ℚ :=
  let margin : ℚ := if isMobile then 80 else 100
  if isMobile then c - 2 * margin else max (c - 2 * margin) (c * 2 - 2 * margin)

/-- The device-specific initial zoom multiplier (`initialZoomMultiplier = 2`
on mobile, `desktopInitialZoomMultiplier = 1.0` on desktop). -/
def zoomMultiplier (isMobile : Bool) : ℚ := if isMobile then 2 else 1

/-- The scale chosen by `fitToScreen` from container and bounding-box
dimensions: fit-then-clamp when the box is non-degenerate, else 1; the
multiplier branch runs only when the multiplier exceeds 1. -/
def fitScale (isMobile : Bool) (cw ch gw gh : ℚ) : ℚ :=
  let aw := fitAvail isMobile cw
  let ah := fitAvail isMobile ch
  let scale0 : ℚ :=
    if 0 < gw ∧ 0 < gh then max (min (min (aw / gw) (ah / gh)) (12/10)) (6/10) else 1
  let m := zoomMultiplier isMobile
  if 1 < m then min (scale0 * m) 8 else scale0

/-- Stated from the spec's words, for comparison with `fitScale`:
`clamp(min(availableWidth/graphWidth, availableHeight/graphHeight), 0.6, 1.2)`,
multiplied by the device multiplier and hard-capped at 8. -/
def fitScaleSpec (isMobile : Bool) (cw ch gw gh : ℚ) : ℚ :=
  let aw := fitAvail isMobile cw
  let ah := fitAvail isMobile ch
  min (max (min (min (aw / gw) (ah / gh)) (12/10)) (6/10) * zoomMultiplier isMobile) 8

/-! ### Derived observations and comparison definitions -/

/-- Squared distance between two nodes (`dx*dx + dy*dy` of the source). -/
def sqDist (a b : Node) : ℚ :=
  (b.x - a.x) * (b.x - a.x) + (b.y - a.y) * (b.y - a.y)

/-- The non-positional data of a node (everything a layout run may not
change: id, primary type, role array, label, payload). -/
def core (n : Node) : String × String × List String × List Char × Option PersonData :=
  (n.id, n.ntype, n.types, n.label, n.pdata)

/-- Position of the node with a given id in a list (for reading results of
concrete runs; `(0, 0)` when absent). -/
def nodeXY (ns : List Node) (i : String) : ℚ × ℚ :=
  match ns.find? (fun n => n.id == i) with
  | some n => (n.x, n.y)
  | none => (0, 0)

/-- Squared distance between two id-addressed positions of a node list. -/
def idDistSq (ns : List Node) (i j : String) : ℚ :=
  let p := nodeXY ns i
  let q := nodeXY ns j
  (q.1 - p.1) * (q.1 - p.1) + (q.2 - p.2) * (q.2 - p.2)

/-- Stated from the spec's words, for comparison with `degreeMap`: the number
of connections incident to `i` *within the currently visible subgraph*, i.e.
counting only connections both of whose endpoints resolve to visible nodes. -/
def visibleIncidentCount (st : NetState) (i : String) : ℕ :=
  st.connections.countP (fun c =>
    (match nodeMapGet st.nodes c.cfrom with
     | some a => isNodeVisible st a
     | none => false)
    && (match nodeMapGet st.nodes c.cto with
        | some b => isNodeVisible st b
        | none => false)
    && (c.cfrom == i || c.cto == i))

/-! ### Concrete fixtures for witnesses and counterexamples -/

/-- A bare test node of a given id, primary type and position (no role
array, no payload, defined position). -/
def fxNode (i : String) (t : String) (px py : ℚ) : Node :=
  { id := i, ntype := t, types := [], label := ['n'], pdata := none,
    x := px, y := py, posDef := true }

/-- All six type toggles off (legend fully disabled). -/
def allOff : List (String × Bool) :=
  [("artist", false), ("dj", false), ("location", false),
   ("genre", false), ("collective", false), ("other", false)]

/-- Search fixture: a matched genre node `a` (label `rock`), its neighbour
`b` and an unrelated node `c`, with the `location` toggle off and search
term `Ro`. -/
def c1st : NetState :=
  { nodes :=
      [{ id := "a", ntype := "genre", types := [], label := ['r','o','c','k'],
         pdata := none, x := 0, y := 0, posDef := true },
       fxNode "b" "location" 0 0, fxNode "c" "location" 0 0],
    connections := [⟨"a", "b", "location"⟩],
    visibleTypes := [("location", false)],
    searchTerm := ['R', 'o'] }

/-- Spacing fixture: three collinear visible nodes 30px apart (minDistance
is 40), default toggles, no search. -/
def c2st : NetState :=
  { nodes := [fxNode "A" "location" 0 0, fxNode "B" "location" 30 0,
              fxNode "C" "location" 60 0],
    connections := [], visibleTypes := [], searchTerm := [] }

/-- The spacing-relaxation output for the `c2st` fixture: the 4 desktop
passes applied to its layout set (because the `c2st` run uses 0 force
iterations and the constant-½ random stream makes the jitter exactly 0,
this is precisely the list the run holds right after its spacing passes). -/
def c2after : List Node :=
  (List.range 4).foldl (fun ns _ => spacingPass ratSqrt 40 ns) (layoutNodesOf c2st)

/-- The full `c2st` run (desktop, 0 force iterations, jitter 0). -/
def c2run : NetState :=
  runLayout ratSqrt (fun _ => 1/2) defaultTuning 0 false 1000 1000 c2st

/-- Empty-visible-set fixture with a dj node: every toggle off, no search
term, one `dj`-primary node at (-1, 3). -/
def c4st : NetState :=
  { nodes := [fxNode "d" "dj" (-1) 3],
    connections := [], visibleTypes := allOff, searchTerm := [] }

/-- The `c4st` run: desktop, one force iteration, 2×2 canvas (chosen so
every square-root argument of the run is a perfect square and `ratSqrt`
computes it exactly), constant-½ random stream (jitter 0). -/
def c4run : NetState :=
  runLayout ratSqrt (fun _ => 1/2) defaultTuning 1 false 2 2 c4st

/-- Empty-*layout*-set fixture: a single location node with every toggle
off and no search term (no dj node, so the layout set is empty too). -/
def c4empty : NetState :=
  { nodes := [fxNode "p" "location" 5 7],
    connections := [], visibleTypes := allOff, searchTerm := [] }

/-- Degree fixture: visible artist `A`, hidden location `B` (location
toggle off), one connection between them, plus a dangling connection. -/
def c6st : NetState :=
  { nodes := [fxNode "A" "artist" 0 0, fxNode "B" "location" 10 0],
    connections := [⟨"A", "B", "location"⟩, ⟨"A", "ghost", "genre"⟩],
    visibleTypes := [("location", false)], searchTerm := [] }

/-- Dangling-edge fixture: two nodes, one resolvable connection, one
connection with a missing endpoint. -/
def c9st : NetState :=
  { nodes := [fxNode "A" "artist" 0 0, fxNode "B" "location" 10 0],
    connections := [⟨"A", "B", "location"⟩, ⟨"A", "ghost", "genre"⟩],
    visibleTypes := [], searchTerm := [] }

/-!
Batteries marks the `Rat` field operations irreducible for elaboration
performance; the concrete runs below are closed rational computations, so
kernel-level evaluation is restored for them.
-/

set_option allowUnsafeReducibility true in
attribute [semireducible] Rat.mul Rat.inv Rat.add Rat.sub Rat.ofScientific

/-! ### Helper lemmas -/

/-- `ratSqrt` never returns a negative value. -/
theorem ratSqrt_nonneg (q : ℚ) : 0 ≤ ratSqrt q := by
  unfold ratSqrt
  exact div_nonneg (by positivity) (by positivity)

/-- A successful id-map lookup returns a member of the node list carrying
the looked-up id. -/
theorem nodeMapGet_mem {nodes : List Node} {i : String} {n : Node}
    (h : nodeMapGet nodes i = some n) : n ∈ nodes ∧ n.id = i := by
  unfold nodeMapGet at h
  refine ⟨List.mem_reverse.mp (List.mem_of_find?_eq_some h), ?_⟩
  have := List.find?_some h
  simpa using this

/-! ### Claim theorems (part 1) -/

/-- C3: in the exact-arithmetic embedding the only way a non-finite value
(`NaN`/`Infinity`) can enter is a division by zero, and every division of
the layout run — repulsion, attraction, gravity, force-magnitude
normalisation and the spacing relaxation — divides by a value of the form
`floorDist sq dx dy`.  Whenever the square root is nonnegative on
nonnegative inputs (as `Math.sqrt` is), that divisor is strictly positive;
and when the square root returns zero it is floored to the epsilon
`0.001`. Hence positions stay finite for any number of iterations. -/
theorem layout_divisors_positive (sq : ℚ → ℚ) (hsq : ∀ q : ℚ, 0 ≤ q → 0 ≤ sq q)
    (dx dy bonus : ℚ) (hbonus : 0 ≤ bonus) (isMobile : Bool)
    (width height : ℚ) (len : ℕ)
    (hkpos : 0 < sq (layoutW isMobile width * layoutW isMobile height
      / max 1 (len : ℚ))) :
    0 < floorDist sq dx dy ∧
      (sq (dx * dx + dy * dy) = 0 → floorDist sq dx dy = 1/1000) ∧
      0 < floorDist sq dx dy * (1 + bonus) ∧
      0 < sq (layoutW isMobile width * layoutW isMobile height / max 1 (len : ℚ))
          * (if isMobile then (115:ℚ)/100 else 65/100) := by
  have hfd : 0 < floorDist sq dx dy := by
    unfold floorDist
    by_cases h : sq (dx * dx + dy * dy) = 0
    · simp only [h, if_pos]
      norm_num
    · have h0 : 0 ≤ sq (dx * dx + dy * dy) :=
        hsq _ (add_nonneg (mul_self_nonneg dx) (mul_self_nonneg dy))
      simp only [if_neg h]
      exact lt_of_le_of_ne h0 (Ne.symm h)
  refine ⟨hfd, ?_, ?_, ?_⟩
  · intro h
    unfold floorDist
    simp [h]
  · exact mul_pos hfd (by linarith)
  · apply mul_pos hkpos
    by_cases h : isMobile <;> simp [h]

/-- C3 witness: the divisors at two coincident nodes on a 2×2 desktop
canvas with one layout node, with the concrete square root. -/
theorem layout_divisors_positive_witness :
    ((∀ q : ℚ, 0 ≤ q → 0 ≤ ratSqrt q) ∧ (0:ℚ) ≤ 55/100 ∧
        0 < ratSqrt (layoutW false 2 * layoutW false 2 / max 1 ((1:ℕ) : ℚ))) ∧
      (0 < floorDist ratSqrt 0 0 ∧
        (ratSqrt ((0:ℚ) * 0 + 0 * 0) = 0 → floorDist ratSqrt 0 0 = 1/1000) ∧
        0 < floorDist ratSqrt 0 0 * (1 + 55/100) ∧
        0 < ratSqrt (layoutW false 2 * layoutW false 2 / max 1 ((1:ℕ) : ℚ))
            * (if false then (115:ℚ)/100 else 65/100)) :=
  ⟨⟨fun q _ => ratSqrt_nonneg q, by norm_num, by decide⟩,
   layout_divisors_positive ratSqrt (fun q _ => ratSqrt_nonneg q) 0 0 (55/100)
     (by norm_num) false 2 2 1 (by decide)⟩

/-- C5 (code bug): at any positive distance, the magnitude computed with the
same-type bonus 0.55 is strictly *smaller* than with bonus 0 — the source
divides by `(1 + sameTypeBonus)`, so the parameter that its own comment
calls "extra repulsion for same-type nodes" in fact weakens repulsion. -/
theorem sameTypeRepel_weakens_repulsion (repF kC dist : ℚ)
    (hrep : 0 < repF) (hk : kC ≠ 0) (hdist : 0 < dist) :
    repulseMag repF kC (55/100) dist < repulseMag repF kC 0 dist := by
  unfold repulseMag
  have hnum : 0 < repF * (kC * kC) := mul_pos hrep (mul_self_pos.mpr hk)
  have h1 : 0 < dist * (1 + 0) := by nlinarith
  have h2 : dist * (1 + 0) < dist * (1 + 55/100) := by nlinarith
  exact div_lt_div_of_pos_left hnum h1 h2

/-- C5 witness: two same-type person nodes at distance 100 with the default
repulsion 0.03 and `k = 100`: the bonus formula yields 60/31 (≈1.94) versus
3 without the bonus. -/
theorem sameTypeRepel_weakens_repulsion_witness :
    (0 < (3/100 : ℚ) ∧ (100 : ℚ) ≠ 0 ∧ 0 < (100 : ℚ)) ∧
      repulseMag (3/100) 100 (55/100) 100 < repulseMag (3/100) 100 0 100 :=
  ⟨⟨by norm_num, by norm_num, by norm_num⟩,
   sameTypeRepel_weakens_repulsion (3/100) 100 100 (by norm_num) (by norm_num)
     (by norm_num)⟩

/-- C8: for a non-degenerate bounding box the fitter's scale is exactly the
spec formula — fit ratio clamped to [0.6, 1.2], multiplied by the device
zoom multiplier (2 on mobile, 1.0 on desktop) and capped at 8 — and the
chosen scale is strictly positive for every bounding box whatsoever. -/
theorem fitScale_matches_spec (isMobile : Bool) (cw ch gw gh : ℚ)
    (hgw : 0 < gw) (hgh : 0 < gh) :
    fitScale isMobile cw ch gw gh = fitScaleSpec isMobile cw ch gw gh ∧
      ∀ gw' gh' : ℚ, 0 < fitScale isMobile cw ch gw' gh' := by
  have hb8 : ∀ a b : ℚ, max (min (min a b) (12/10)) (6/10) ≤ 8 := by
    intro a b
    apply max_le
    · exact le_trans (min_le_right _ _) (by norm_num)
    · norm_num
  have hbpos : ∀ a b : ℚ, (0:ℚ) < max (min (min a b) (12/10)) (6/10) :=
    fun a b => lt_of_lt_of_le (by norm_num) (le_max_right _ _)
  constructor
  · cases isMobile with
    | false =>
      simp only [fitScale, fitScaleSpec, zoomMultiplier, Bool.false_eq_true,
        if_false, if_pos (And.intro hgw hgh)]
      rw [if_neg (by norm_num : ¬ (1:ℚ) < 1), mul_one, min_eq_left (hb8 _ _)]
    | true =>
      simp only [fitScale, fitScaleSpec, zoomMultiplier, if_true,
        if_pos (And.intro hgw hgh)]
      rw [if_pos (by norm_num : (1:ℚ) < 2)]
  · intro gw' gh'
    cases isMobile with
    | false =>
      simp only [fitScale, zoomMultiplier, Bool.false_eq_true, if_false]
      rw [if_neg (by norm_num : ¬ (1:ℚ) < 1)]
      split
      · exact hbpos _ _
      · norm_num
    | true =>
      simp only [fitScale, zoomMultiplier, if_true]
      rw [if_pos (by norm_num : (1:ℚ) < 2)]
      apply lt_min _ (by norm_num)
      apply mul_pos _ (by norm_num : (0:ℚ) < 2)
      split
      · exact hbpos _ _
      · norm_num

/-- C8 witness: desktop, 800×600 container, a 2000×2000 bounding box. -/
theorem fitScale_matches_spec_witness :
    (0 < (2000 : ℚ) ∧ 0 < (2000 : ℚ)) ∧
      (fitScale false 800 600 2000 2000 = fitScaleSpec false 800 600 2000 2000 ∧
        ∀ gw' gh' : ℚ, 0 < fitScale false 800 600 gw' gh') :=
  ⟨⟨by norm_num, by norm_num⟩,
   fitScale_matches_spec false 800 600 2000 2000 (by norm_num) (by norm_num)⟩

/-- C9: index resolution never drops or rejects a raw connection (one ref
per raw connection — dangling edges never raise an error), every edge the
layout run uses has both endpoints resolved to existing nodes, and a
connection with an unresolvable endpoint yields a `null`-endpoint ref that
can never be among the run's resolved edges. -/
theorem dangling_edges_excluded (st : NetState) (ids : List String) :
    (connectionRefs st).length = st.connections.length ∧
      (∀ cr ∈ layoutConns st ids,
        ∃ a b, cr.fromN = some a ∧ cr.toN = some b ∧ a ∈ st.nodes ∧ b ∈ st.nodes) ∧
      (∀ c ∈ st.connections,
        nodeMapGet st.nodes c.cfrom = none ∨ nodeMapGet st.nodes c.cto = none →
          (⟨nodeMapGet st.nodes c.cfrom, nodeMapGet st.nodes c.cto, c.ctype⟩ : CRef)
            ∉ layoutConns st ids) := by
  refine ⟨by simp [connectionRefs], ?_, ?_⟩
  · intro cr hcr
    have hmem := List.mem_filter.mp hcr
    obtain ⟨hcr1, hcr2⟩ := hmem
    match hfrom : cr.fromN, hto : cr.toN with
    | some a, some b =>
      refine ⟨a, b, rfl, rfl, ?_, ?_⟩
      · obtain ⟨c, _, hc⟩ := List.mem_map.mp hcr1
        have : cr.fromN = nodeMapGet st.nodes c.cfrom := by rw [← hc]
        exact (nodeMapGet_mem (by rw [← this, hfrom])).1
      · obtain ⟨c, _, hc⟩ := List.mem_map.mp hcr1
        have : cr.toN = nodeMapGet st.nodes c.cto := by rw [← hc]
        exact (nodeMapGet_mem (by rw [← this, hto])).1
    | some a, none => rw [hfrom, hto] at hcr2; simp at hcr2
    | none, _ => rw [hfrom] at hcr2; simp at hcr2
  · intro c _ hnone hmem
    have hcr2 := (List.mem_filter.mp hmem).2
    rcases hnone with h | h <;> rw [h] at hcr2 <;> simp at hcr2

/-- C9 witness: the concrete fixture with one resolvable and one dangling
connection. -/
theorem dangling_edges_excluded_witness :
    (connectionRefs c9st).length = c9st.connections.length ∧
      (∀ cr ∈ layoutConns c9st ["A", "B"],
        ∃ a b, cr.fromN = some a ∧ cr.toN = some b ∧
          a ∈ c9st.nodes ∧ b ∈ c9st.nodes) ∧
      (∀ c ∈ c9st.connections,
        nodeMapGet c9st.nodes c.cfrom = none ∨ nodeMapGet c9st.nodes c.cto = none →
          (⟨nodeMapGet c9st.nodes c.cfrom, nodeMapGet c9st.nodes c.cto, c.ctype⟩ : CRef)
            ∉ layoutConns c9st ["A", "B"]) :=
  dangling_edges_excluded c9st ["A", "B"]

/-- C4 (amended): whenever the *layout set* — visible nodes plus, with no
search term, dj-primary nodes — is empty, the run returns the state
entirely unchanged (and, being a total function, cannot throw). -/
theorem runLayout_empty_layoutset_noop (sq : ℚ → ℚ) (rnd : ℕ → ℚ) (t : Tuning)
    (iterations : ℕ) (isMobile : Bool) (width height : ℚ) (st : NetState)
    (h : layoutNodesOf st = []) :
    runLayout sq rnd t iterations isMobile width height st = st := by
  unfold runLayout
  by_cases h0 : st.nodes.isEmpty
  · simp [h0]
  · simp [h0, h]

/-- C4 (amended) witness: all toggles off over a single location node. -/
theorem runLayout_empty_layoutset_noop_witness :
    layoutNodesOf c4empty = [] ∧
      runLayout ratSqrt (fun _ => 1/2) defaultTuning 270 false 800 600 c4empty
        = c4empty := by
  constructor
  · decide
  · exact runLayout_empty_layoutset_noop ratSqrt (fun _ => 1/2) defaultTuning 270
      false 800 600 c4empty (by decide)

/-- C1: under a non-empty search term, if the match set is empty the visible
set is empty whatever the toggles say; otherwise a node is visible exactly
when its id lies in the match set expanded one hop along resolved edges —
in particular nodes of the expanded set are visible even when their type
toggle is off, since the toggles do not enter the criterion at all. -/
theorem search_visible_set (st : NetState) (hterm : st.searchTerm ≠ []) :
    (matchedIds st = [] → visibleNodes st = []) ∧
      (matchedIds st ≠ [] →
        ∀ n ∈ st.nodes, (isNodeVisible st n = true ↔ n.id ∈ expandedIds st)) := by
  have hlow : ¬ lowerStr st.searchTerm = [] := by
    simp only [lowerStr, List.map_eq_nil_iff]
    exact hterm
  have hempty : st.searchTerm.isEmpty = false := by
    simp [List.isEmpty_iff, hterm]
  constructor
  · intro hm
    unfold visibleNodes
    rw [List.filter_eq_nil_iff]
    intro n _
    unfold isNodeVisible filteredIds
    simp [hempty, hlow, hm]
  · intro hm n _
    unfold isNodeVisible filteredIds
    simp only [hempty, Bool.false_eq_true, if_false, if_neg hlow, if_neg hm]
    simp [List.contains, List.elem_iff]

/-- C1 witness: term `Ro` on the `c1st` fixture (match `a`, neighbour `b`
visible despite its toggle being off, no-hit emptiness implied vacuously). -/
theorem search_visible_set_witness :
    c1st.searchTerm ≠ [] ∧
      ((matchedIds c1st = [] → visibleNodes c1st = []) ∧
        (matchedIds c1st ≠ [] →
          ∀ n ∈ c1st.nodes, (isNodeVisible c1st n = true ↔ n.id ∈ expandedIds c1st))) :=
  ⟨by decide, search_visible_set c1st (by decide)⟩

/-- Value of the degree fold at an id in the layout set: one count per raw
connection endpoint equal to that id, on top of the accumulator. -/
theorem degreeBump_foldl (ids : List String) (i : String)
    (hi : ids.contains i = true) :
    ∀ (conns : List Conn) (d0 : String → ℕ),
      (conns.foldl (degreeBump ids) d0) i
        = d0 i + conns.countP (fun c => c.cfrom == i)
            + conns.countP (fun c => c.cto == i) := by
  intro conns
  induction conns with
  | nil => intro d0; simp
  | cons c rest ih =>
    intro d0
    rw [List.foldl_cons, ih, List.countP_cons, List.countP_cons]
    have hstep : degreeBump ids d0 c i
        = d0 i + (if c.cfrom == i then 1 else 0) + (if c.cto == i then 1 else 0) := by
      simp only [degreeBump]
      by_cases h1 : i = c.cfrom <;> by_cases h2 : i = c.cto
      · rw [if_pos ⟨h2 ▸ hi, h2⟩, if_pos ⟨h1 ▸ hi, h1⟩,
          if_pos (beq_iff_eq.mpr h1.symm), if_pos (beq_iff_eq.mpr h2.symm)]
      · rw [if_neg (fun h => h2 h.2), if_pos ⟨h1 ▸ hi, h1⟩,
          if_pos (beq_iff_eq.mpr h1.symm),
          if_neg (fun h => h2 (beq_iff_eq.mp h).symm)]
      · rw [if_pos ⟨h2 ▸ hi, h2⟩, if_neg (fun h => h1 h.2),
          if_neg (fun h => h1 (beq_iff_eq.mp h).symm),
          if_pos (beq_iff_eq.mpr h2.symm)]
      · rw [if_neg (fun h => h2 h.2), if_neg (fun h => h1 h.2),
          if_neg (fun h => h1 (beq_iff_eq.mp h).symm),
          if_neg (fun h => h2 (beq_iff_eq.mp h).symm)]
        omega
    rw [hstep]
    omega

/-- C6 (amended): the degree used by a layout run for a node in the layout
set equals the number of *raw* connection endpoints naming that node — the
other endpoint's visibility (indeed its very existence) is not consulted. -/
theorem layout_degree_counts_raw_incident (st : NetState) (i : String)
    (hi : (((layoutNodesOf st).map (fun n => n.id)).contains i) = true) :
    degreeMap st.connections ((layoutNodesOf st).map (fun n => n.id)) i
      = st.connections.countP (fun c => c.cfrom == i)
          + st.connections.countP (fun c => c.cto == i) := by
  unfold degreeMap
  rw [degreeBump_foldl _ i hi]
  omega

/-- C6 (amended) witness: node `A` of the `c6st` fixture has code degree 2
(one edge to the hidden `B`, one dangling edge). -/
theorem layout_degree_counts_raw_incident_witness :
    ((((layoutNodesOf c6st).map (fun n => n.id)).contains "A") = true) ∧
      degreeMap c6st.connections ((layoutNodesOf c6st).map (fun n => n.id)) "A"
        = c6st.connections.countP (fun c => c.cfrom == "A")
            + c6st.connections.countP (fun c => c.cto == "A") :=
  ⟨by decide, layout_degree_counts_raw_incident c6st "A" (by decide)⟩

/-! ### Frame machinery: every pipeline phase only moves positions -/

/-- Setting a slot to the value it already holds is the identity. -/
theorem set_self_of_getElem {α : Type} :
    ∀ (l : List α) (i : ℕ) (a : α), l[i]? = some a → l.set i a = l := by
  intro l
  induction l with
  | nil => intro i a h; simp at h
  | cons x t ih =>
    intro i a h
    cases i with
    | zero =>
      simp only [List.getElem?_cons_zero, Option.some.injEq] at h
      simp [h]
    | succ n =>
      simp only [List.getElem?_cons_succ] at h
      simp [ih n a h]

/-- Overwriting a slot with a node of the same non-positional data leaves
the `core` image unchanged. -/
theorem map_core_set (ns : List Node) (i : ℕ) (m n : Node)
    (h : ns[i]? = some n) (hc : core m = core n) :
    (ns.set i m).map core = ns.map core := by
  rw [List.map_set, hc]
  apply set_self_of_getElem
  rw [List.getElem?_map, h]
  rfl

/-- Seeding only assigns positions. -/
theorem seedNodes_core (rnd : ℕ → ℚ) (lw lh : ℚ) :
    ∀ (ns : List Node) (k : ℕ),
      ((seedNodes rnd lw lh ns k).1).map core = ns.map core := by
  intro ns
  induction ns with
  | nil => intro k; simp [seedNodes]
  | cons n rest ih =>
    intro k
    simp only [seedNodes]
    by_cases h : n.posDef <;> simp [h, ih, core]

/-- Integration only assigns positions. -/
theorem integratePhase_core (sq : ℚ → ℚ) (temp lw lh : ℚ) (isMobile : Bool)
    (width height : ℚ) (f : String → ℚ × ℚ) (ns : List Node) :
    (integratePhase sq temp lw lh isMobile width height f ns).map core
      = ns.map core := by
  unfold integratePhase
  rw [List.map_map]
  apply List.map_congr_left
  intro n _
  by_cases h : isMobile <;> simp [h, core, Function.comp]

/-- A fold whose step preserves the `core` image preserves it globally. -/
theorem foldl_map_core {β : Type} {f : List Node → β → List Node}
    (hf : ∀ ns b, (f ns b).map core = ns.map core) :
    ∀ (l : List β) (ns : List Node), (l.foldl f ns).map core = ns.map core := by
  intro l
  induction l with
  | nil => intro ns; rfl
  | cons b tl ih => intro ns; rw [List.foldl_cons, ih, hf]

/-- One force iteration only assigns positions. -/
theorem iterStep_core (sq : ℚ → ℚ) (repF attrB gBase kC sameRep lw lh : ℚ)
    (isMobile : Bool) (width height : ℚ) (iterations : ℕ) (deg : String → ℕ)
    (conns : List CRef) (ns : List Node) (iter : ℕ) :
    (iterStep sq repF attrB gBase kC sameRep lw lh isMobile width height
        iterations deg conns ns iter).map core = ns.map core := by
  unfold iterStep
  exact integratePhase_core _ _ _ _ _ _ _ _ _

/-- Two same-core overwrites (the two sides of one overlap correction)
leave the `core` image unchanged, also when the indices coincide. -/
theorem map_core_set₂ (ns : List Node) (i j : ℕ) (ma mb na nb : Node)
    (hi : ns[i]? = some na) (hj : ns[j]? = some nb)
    (hca : core ma = core na) (hcb : core mb = core nb) :
    ((ns.set i ma).set j mb).map core = ns.map core := by
  by_cases hij : i = j
  · subst hij
    have hab : na = nb := by
      rw [hi] at hj
      exact (Option.some.injEq _ _).mp hj
    rw [map_core_set _ _ mb ma (by rw [List.getElem?_set_self', hi]; rfl)
      (by rw [hcb, ← hab, ← hca])]
    exact map_core_set _ _ _ _ hi hca
  · rw [map_core_set _ _ mb nb (by rw [List.getElem?_set_ne hij, hj]) hcb]
    exact map_core_set _ _ _ _ hi hca

/-- One overlap correction only assigns positions. -/
theorem spacingPair_core (sq : ℚ → ℚ) (m : ℚ) (ns : List Node) (ij : ℕ × ℕ) :
    (spacingPair sq m ns ij).map core = ns.map core := by
  unfold spacingPair
  cases h1 : ns[ij.1]? with
  | none => rfl
  | some a =>
    cases h2 : ns[ij.2]? with
    | none => rfl
    | some b =>
      dsimp only
      by_cases hlt : floorDist sq (b.x - a.x) (b.y - a.y) < m
      · rw [if_pos hlt]
        exact map_core_set₂ ns ij.1 ij.2 _ _ a b h1 h2 rfl rfl
      · rw [if_neg hlt]

/-- One spacing pass only assigns positions. -/
theorem spacingPass_core (sq : ℚ → ℚ) (m : ℚ) (ns : List Node) :
    (spacingPass sq m ns).map core = ns.map core := by
  unfold spacingPass
  exact foldl_map_core (spacingPair_core sq m) _ _

/-- The whole numeric pipeline only assigns positions: its output has the
same length, order, ids, types, labels and payloads as the layout list. -/
theorem layoutPipeline_core (sq : ℚ → ℚ) (rnd : ℕ → ℚ) (t : Tuning)
    (iterations : ℕ) (isMobile : Bool) (width height : ℚ) (st : NetState)
    (lns : List Node) :
    (layoutPipeline sq rnd t iterations isMobile width height st lns).map core
      = lns.map core := by
  cases isMobile with
  | true =>
    unfold layoutPipeline
    simp only [if_true]
    rw [foldl_map_core (fun ns _ => spacingPass_core sq _ ns),
      foldl_map_core (fun ns i => iterStep_core sq _ _ _ _ _ _ _ _ _ _ _ _ _ ns i),
      seedNodes_core]
  | false =>
    unfold layoutPipeline
    simp only [Bool.false_eq_true, if_false, List.map_map]
    rw [show core ∘ clampPad (layoutW false width) (layoutW false height)
      = core from rfl]
    rw [foldl_map_core (fun ns _ => spacingPass_core sq _ ns),
      foldl_map_core (fun ns i => iterStep_core sq _ _ _ _ _ _ _ _ _ _ _ _ _ ns i),
      seedNodes_core]

/-- Looking a node's id up in a position-updated copy of a duplicate-free
list returns a node with the same non-positional data. -/
theorem find_core_eq :
    ∀ (l₁ l₂ : List Node), l₁.map core = l₂.map core →
      (l₁.map (fun n => n.id)).Nodup →
      ∀ n ∈ l₁, ∀ m, l₂.find? (fun x => x.id == n.id) = some m → core m = core n := by
  intro l₁
  induction l₁ with
  | nil => intro l₂ _ _ n hmem; simp at hmem
  | cons a t ih =>
    intro l₂ hcore hnodup n hmem m hfind
    cases l₂ with
    | nil => simp at hcore
    | cons b t₂ =>
      simp only [List.map_cons, List.cons.injEq] at hcore
      obtain ⟨hab, htail⟩ := hcore
      have hid : b.id = a.id := (congrArg Prod.fst hab).symm
      rcases List.mem_cons.mp hmem with rfl | hmem'
      · rw [List.find?_cons_of_pos _ (by simp [hid])] at hfind
        have : b = m := (Option.some.injEq _ _).mp hfind
        rw [← this]
        exact hab.symm
      · rw [List.map_cons, List.nodup_cons] at hnodup
        have hne : a.id ≠ n.id := by
          intro hcontra
          have hmm : n.id ∈ t.map (fun x => x.id) := List.mem_map_of_mem _ hmem'
          exact hnodup.1 (hcontra ▸ hmm)
        rw [List.find?_cons_of_neg _ (by simp [hid, hne])] at hfind
        exact ih t₂ htail hnodup.2 n hmem' m hfind

/-- C10: a layout run never changes the connection collection, the toggle
map or the search term; every node keeps its id, type, role array, label
and payload; and any node outside the layout set — the visible nodes plus,
when no search term is active, dj-primary nodes — keeps its exact position.
(Only layout-set nodes can have their x/y rewritten.) -/
theorem runLayout_frame (sq : ℚ → ℚ) (rnd : ℕ → ℚ) (t : Tuning)
    (iterations : ℕ) (isMobile : Bool) (width height : ℚ) (st : NetState)
    (hnd : (st.nodes.map (fun n => n.id)).Nodup) :
    (runLayout sq rnd t iterations isMobile width height st).connections
        = st.connections ∧
      (runLayout sq rnd t iterations isMobile width height st).visibleTypes
        = st.visibleTypes ∧
      (runLayout sq rnd t iterations isMobile width height st).searchTerm
        = st.searchTerm ∧
      (runLayout sq rnd t iterations isMobile width height st).nodes.map core
        = st.nodes.map core ∧
      ∀ (i : ℕ) (h1 : i < st.nodes.length)
        (h2 : i < (runLayout sq rnd t iterations isMobile width height st).nodes.length),
        layoutPred st (st.nodes.get ⟨i, h1⟩) = false →
          (runLayout sq rnd t iterations isMobile width height st).nodes.get ⟨i, h2⟩
            = st.nodes.get ⟨i, h1⟩ := by
  by_cases h0 : st.nodes.isEmpty
  · have hrun : runLayout sq rnd t iterations isMobile width height st = st := by
      unfold runLayout
      rw [if_pos h0]
    rw [hrun]
    exact ⟨rfl, rfl, rfl, rfl, fun i h1 h2 _ => rfl⟩
  · by_cases hl : (layoutNodesOf st).isEmpty
    · have hrun : runLayout sq rnd t iterations isMobile width height st = st := by
        unfold runLayout
        rw [if_neg h0, if_pos hl]
      rw [hrun]
      exact ⟨rfl, rfl, rfl, rfl, fun i h1 h2 _ => rfl⟩
    · have hrun : runLayout sq rnd t iterations isMobile width height st
          = { st with nodes := st.nodes.map (fun n =>
              if layoutPred st n then
                ((layoutPipeline sq rnd t iterations isMobile width height st
                    (layoutNodesOf st)).find? (fun m => m.id == n.id)).getD n
              else n) } := by
        unfold runLayout
        rw [if_neg h0, if_neg hl]
      rw [hrun]
      refine ⟨rfl, rfl, rfl, ?_, ?_⟩
      · rw [List.map_map]
        apply List.map_congr_left
        intro n hn
        simp only [Function.comp]
        by_cases hpred : layoutPred st n
        · rw [if_pos hpred]
          cases hfind : (layoutPipeline sq rnd t iterations isMobile width height st
              (layoutNodesOf st)).find? (fun m => m.id == n.id) with
          | none => rfl
          | some m =>
            simp only [Option.getD_some]
            apply find_core_eq (layoutNodesOf st) _
              (layoutPipeline_core sq rnd t iterations isMobile width height st
                (layoutNodesOf st)).symm
              ?_ n ?_ m hfind
            · exact List.Nodup.sublist
                (List.Sublist.map _ (List.filter_sublist st.nodes)) hnd
            · exact List.mem_filter.mpr ⟨hn, hpred⟩
        · rw [if_neg hpred]
      · intro i h1 h2 hpred
        rw [List.get_eq_getElem, List.get_eq_getElem, List.getElem_map]
        have hpred' : layoutPred st st.nodes[i] = false := by
          simpa using hpred
        rw [if_neg (by simp [hpred'])]

/-- C10 witness: the `c6st` fixture (duplicate-free ids, hidden `B` outside
the layout set). -/
theorem runLayout_frame_witness :
    ((c6st.nodes.map (fun n => n.id)).Nodup) ∧
      ((runLayout ratSqrt (fun _ => 1/2) defaultTuning 0 false 100 100 c6st).connections
          = c6st.connections ∧
        (runLayout ratSqrt (fun _ => 1/2) defaultTuning 0 false 100 100 c6st).visibleTypes
          = c6st.visibleTypes ∧
        (runLayout ratSqrt (fun _ => 1/2) defaultTuning 0 false 100 100 c6st).searchTerm
          = c6st.searchTerm ∧
        (runLayout ratSqrt (fun _ => 1/2) defaultTuning 0 false 100 100 c6st).nodes.map core
          = c6st.nodes.map core ∧
        ∀ (i : ℕ) (h1 : i < c6st.nodes.length)
          (h2 : i < (runLayout ratSqrt (fun _ => 1/2) defaultTuning 0 false 100 100 c6st).nodes.length),
          layoutPred c6st (c6st.nodes.get ⟨i, h1⟩) = false →
            (runLayout ratSqrt (fun _ => 1/2) defaultTuning 0 false 100 100 c6st).nodes.get ⟨i, h2⟩
              = c6st.nodes.get ⟨i, h1⟩) :=
  ⟨by decide, runLayout_frame ratSqrt (fun _ => 1/2) defaultTuning 0 false 100 100 c6st
    (by decide)⟩

/-- On desktop the pipeline ends with the 40px-padding clamp map. -/
theorem layoutPipeline_desktop_shape (sq : ℚ → ℚ) (rnd : ℕ → ℚ) (t : Tuning)
    (iterations : ℕ) (width height : ℚ) (st : NetState) (lns : List Node) :
    ∃ l : List Node, layoutPipeline sq rnd t iterations false width height st lns
      = l.map (clampPad (layoutW false width) (layoutW false height)) := by
  unfold layoutPipeline
  simp only [Bool.false_eq_true, if_false]
  exact ⟨_, rfl⟩

/-- A clamped node lies inside the padded layout area (when the area is at
least twice the padding wide and high). -/
theorem clampPad_bounds (lw lh : ℚ) (hw : 80 ≤ lw) (hh : 80 ≤ lh) (n : Node) :
    40 ≤ (clampPad lw lh n).x ∧ (clampPad lw lh n).x ≤ lw - 40 ∧
      40 ≤ (clampPad lw lh n).y ∧ (clampPad lw lh n).y ≤ lh - 40 := by
  unfold clampPad
  refine ⟨le_max_left _ _, ?_, le_max_left _ _, ?_⟩
  · exact max_le (by linarith) (min_le_left _ _)
  · exact max_le (by linarith) (min_le_left _ _)

/-- C7: after a desktop layout run (layout area at least 80px in each
dimension, i.e. a canvas of at least 80/3 px), every visible node's
position lies within `[40, layoutWidth - 40] × [40, layoutHeight - 40]`,
the layout dimensions being three times the canvas dimensions. -/
theorem desktop_containment (sq : ℚ → ℚ) (rnd : ℕ → ℚ) (t : Tuning)
    (iterations : ℕ) (width height : ℚ) (st : NetState)
    (hw : 80 ≤ width * 3) (hh : 80 ≤ height * 3) :
    ∀ n ∈ (runLayout sq rnd t iterations false width height st).nodes,
      isNodeVisible st n = true →
        40 ≤ n.x ∧ n.x ≤ width * 3 - 40 ∧ 40 ≤ n.y ∧ n.y ≤ height * 3 - 40 := by
  intro n hn hvis
  by_cases h0 : st.nodes.isEmpty
  · exfalso
    have hrun : runLayout sq rnd t iterations false width height st = st := by
      unfold runLayout
      rw [if_pos h0]
    rw [hrun] at hn
    rw [List.isEmpty_iff] at h0
    rw [h0] at hn
    simp at hn
  · by_cases hl : (layoutNodesOf st).isEmpty
    · exfalso
      have hrun : runLayout sq rnd t iterations false width height st = st := by
        unfold runLayout
        rw [if_neg h0, if_pos hl]
      rw [hrun] at hn
      have : n ∈ layoutNodesOf st :=
        List.mem_filter.mpr ⟨hn, by simp [layoutPred, hvis]⟩
      rw [List.isEmpty_iff] at hl
      rw [hl] at this
      simp at this
    · have hrun : runLayout sq rnd t iterations false width height st
          = { st with nodes := st.nodes.map (fun n =>
              if layoutPred st n then
                ((layoutPipeline sq rnd t iterations false width height st
                    (layoutNodesOf st)).find? (fun m => m.id == n.id)).getD n
              else n) } := by
        unfold runLayout
        rw [if_neg h0, if_neg hl]
      rw [hrun] at hn
      obtain ⟨n0, hn0, hφ⟩ := List.mem_map.mp hn
      by_cases hpred : layoutPred st n0
      · rw [if_pos hpred] at hφ
        cases hfind : (layoutPipeline sq rnd t iterations false width height st
            (layoutNodesOf st)).find? (fun m => m.id == n0.id) with
        | some m =>
          rw [hfind, Option.getD_some] at hφ
          obtain ⟨fl, hfl⟩ := layoutPipeline_desktop_shape sq rnd t iterations
            width height st (layoutNodesOf st)
          have hm : m ∈ layoutPipeline sq rnd t iterations false width height st
              (layoutNodesOf st) := List.mem_of_find?_eq_some hfind
          rw [hfl] at hm
          obtain ⟨m0, _, hm0⟩ := List.mem_map.mp hm
          rw [← hφ, ← hm0]
          have hbounds := clampPad_bounds (layoutW false width) (layoutW false height)
            (by simp [layoutW]; linarith) (by simp [layoutW]; linarith) m0
          simpa [layoutW] using hbounds
        | none =>
          exfalso
          have hmem : n0 ∈ layoutNodesOf st := List.mem_filter.mpr ⟨hn0, hpred⟩
          have hcoreeq := layoutPipeline_core sq rnd t iterations false width height st
            (layoutNodesOf st)
          have hids : (layoutPipeline sq rnd t iterations false width height st
              (layoutNodesOf st)).map (fun x => x.id)
                = (layoutNodesOf st).map (fun x => x.id) := by
            have hcomp := congrArg (List.map Prod.fst) hcoreeq
            rw [List.map_map, List.map_map] at hcomp
            exact hcomp
          have hidmem : n0.id ∈ (layoutPipeline sq rnd t iterations false width height st
              (layoutNodesOf st)).map (fun x => x.id) := by
            rw [hids]
            exact List.mem_map_of_mem _ hmem
          obtain ⟨m, hmmem, hmid⟩ := List.mem_map.mp hidmem
          rw [List.find?_eq_none] at hfind
          exact hfind m hmmem (by simp [hmid])
      · exfalso
        rw [if_neg hpred] at hφ
        rw [← hφ] at hvis
        exact hpred (by simp [layoutPred, hvis])

/-- C7 witness: the three-node fixture on a 1000×1000 desktop canvas. -/
theorem desktop_containment_witness :
    ((80:ℚ) ≤ 1000 * 3 ∧ (80:ℚ) ≤ 1000 * 3) ∧
      ∀ n ∈ (runLayout ratSqrt (fun _ => 1/2) defaultTuning 0 false 1000 1000 c2st).nodes,
        isNodeVisible c2st n = true →
          40 ≤ n.x ∧ n.x ≤ 1000 * 3 - 40 ∧ 40 ≤ n.y ∧ n.y ≤ 1000 * 3 - 40 :=
  ⟨⟨by norm_num, by norm_num⟩,
   desktop_containment ratSqrt (fun _ => 1/2) defaultTuning 0 1000 1000 c2st
     (by norm_num) (by norm_num)⟩

/-- Iterating a function that fixes a point stays at that point. -/
theorem foldl_fixed {α β : Type} (g : α → α) (x : α) (hg : g x = x) :
    ∀ l : List β, l.foldl (fun s _ => g s) x = x := by
  intro l
  induction l with
  | nil => rfl
  | cons b tl ih =>
    rw [List.foldl_cons, hg]
    exact ih

/-- The separation algebra of one overlap correction: when the measured
distance `s` squares to the true squared distance, pushing the two points
apart by half the overlap each puts them exactly `m` apart. -/
theorem spacing_sep_algebra (px py qx qy s m : ℚ) (hs : s ≠ 0)
    (h : s * s = (qx - px) * (qx - px) + (qy - py) * (qy - py)) :
    ((qx + (qx - px) / s * ((m - s) / 2)) - (px - (qx - px) / s * ((m - s) / 2)))
        * ((qx + (qx - px) / s * ((m - s) / 2)) - (px - (qx - px) / s * ((m - s) / 2)))
      + ((qy + (qy - py) / s * ((m - s) / 2)) - (py - (qy - py) / s * ((m - s) / 2)))
        * ((qy + (qy - py) / s * ((m - s) / 2)) - (py - (qy - py) / s * ((m - s) / 2)))
      = m * m := by
  field_simp
  ring_nf
  nlinarith [h, sq_nonneg s, sq_nonneg m]

/-- One spacing pass over a two-node layout: either the pair is already at
least `minDist` apart (as the square root sees it) and nothing moves, or it
is pushed to *exactly* `minDist` apart. -/
theorem spacingPass_two (sq : ℚ → ℚ) (m : ℚ) (a b : Node)
    (hd0 : 0 < sqDist a b)
    (hsq2 : sq (sqDist a b) * sq (sqDist a b) = sqDist a b) :
    (m ≤ sq (sqDist a b) ∧ spacingPass sq m [a, b] = [a, b]) ∨
      (sq (sqDist a b) < m ∧ ∃ a2 b2 : Node,
        spacingPass sq m [a, b] = [a2, b2] ∧ sqDist a2 b2 = m * m) := by
  have hs0 : sq (sqDist a b) ≠ 0 := by
    intro h
    rw [h, zero_mul] at hsq2
    exact absurd hsq2.symm (ne_of_gt hd0)
  have hpairs : pairsUpTo 2 = [(0, 1)] := by decide
  have hpass : spacingPass sq m [a, b] = spacingPair sq m [a, b] (0, 1) := by
    unfold spacingPass
    norm_num [hpairs]
  have hfloor : floorDist sq (b.x - a.x) (b.y - a.y) = sq (sqDist a b) := by
    unfold floorDist sqDist
    rw [if_neg (by unfold sqDist at hs0; exact hs0)]
  have hget1 : ([a, b])[(0 : ℕ)]? = some a := rfl
  have hget2 : ([a, b])[(1 : ℕ)]? = some b := rfl
  by_cases hcase : sq (sqDist a b) < m
  · right
    refine ⟨hcase, ?_⟩
    rw [hpass]
    unfold spacingPair
    simp only [hget1, hget2]
    rw [hfloor, if_pos hcase]
    refine ⟨_, _, rfl, ?_⟩
    have hexp : sq (sqDist a b) * sq (sqDist a b)
        = (b.x - a.x) * (b.x - a.x) + (b.y - a.y) * (b.y - a.y) := by
      rw [hsq2]
      rfl
    exact spacing_sep_algebra a.x a.y b.x b.y (sq (sqDist a b)) m hs0 hexp

  · left
    refine ⟨le_of_not_lt hcase, ?_⟩
    rw [hpass]
    unfold spacingPair
    simp only [hget1, hget2]
    rw [hfloor, if_neg hcase]

/-- C2 (amended): each spacing pass separates a too-close pair to exactly
`minDist` at the moment it processes it; consequently a layout of *two*
nodes at distinct positions ends every pass schedule (k ≥ 1 passes) at
squared distance at least `minDist²`.  With three or more nodes — or a
coincident pair — the bounded pass count gives no such guarantee (see the
counterexample). -/
theorem spacing_two_nodes_min_distance (sq : ℚ → ℚ) (m : ℚ) (a b : Node) (k : ℕ)
    (hm : 0 < m) (hd0 : 0 < sqDist a b)
    (hsq2 : sq (sqDist a b) * sq (sqDist a b) = sqDist a b)
    (hsqm : sq (m * m) = m) (hk : 1 ≤ k) :
    ∃ a2 b2 : Node,
      (List.range k).foldl (fun ns _ => spacingPass sq m ns) [a, b] = [a2, b2]
        ∧ m * m ≤ sqDist a2 b2 := by
  obtain ⟨k', rfl⟩ : ∃ k', k = k' + 1 := ⟨k - 1, (Nat.succ_pred_eq_of_pos hk).symm⟩
  rw [List.range_succ_eq_map, List.foldl_cons]
  rcases spacingPass_two sq m a b hd0 hsq2 with ⟨hge, hid⟩ | ⟨_, a2, b2, heq, hdist⟩
  · rw [hid, foldl_fixed _ _ hid]
    refine ⟨a, b, rfl, ?_⟩
    calc m * m ≤ sq (sqDist a b) * sq (sqDist a b) :=
          mul_le_mul hge hge hm.le (le_trans hm.le hge)
      _ = sqDist a b := hsq2
  · rw [heq]
    have hfix : spacingPass sq m [a2, b2] = [a2, b2] := by
      rcases spacingPass_two sq m a2 b2 (hdist ▸ mul_pos hm hm)
          (by rw [hdist, hsqm]) with ⟨_, hid2⟩ | ⟨hlt2, _⟩
      · exact hid2
      · rw [hdist, hsqm] at hlt2
        exact absurd hlt2 (lt_irrefl m)
    rw [foldl_fixed _ _ hfix]
    exact ⟨a2, b2, rfl, le_of_eq hdist.symm⟩

/-- C2 counterexample: three visible collinear nodes 30px apart on a
desktop run with `minDistance = 40`.  After the run's four spacing passes
nodes `A` and `B` sit `5105/128 ≈ 39.88` px apart (squared distance
`26061025/16384 < 1600`) — each pass re-violates a pair an earlier
correction had fixed — and after the run's final clamp they coincide.
Every square-root argument in this computation is a perfect square, so
`ratSqrt` reproduces the floating-point run exactly. -/
theorem spacing_passes_insufficient_cex :
    (∀ n ∈ c2st.nodes, isNodeVisible c2st n = true) ∧
      idDistSq c2after "A" "B" = 26061025/16384 ∧
      idDistSq c2after "A" "B" < 40 * 40 ∧
      idDistSq c2run.nodes "A" "B" = 0 := by
  refine ⟨by decide, by decide, by decide, by decide⟩

/-- C2 (amended) witness: the pair (0,0)–(30,0) with `minDist = 40` and
four passes ends exactly 40px apart. -/
theorem spacing_two_nodes_min_distance_witness :
    (0 < (40:ℚ) ∧
        0 < sqDist (fxNode "A" "location" 0 0) (fxNode "B" "location" 30 0) ∧
        ratSqrt (sqDist (fxNode "A" "location" 0 0) (fxNode "B" "location" 30 0))
            * ratSqrt (sqDist (fxNode "A" "location" 0 0) (fxNode "B" "location" 30 0))
          = sqDist (fxNode "A" "location" 0 0) (fxNode "B" "location" 30 0) ∧
        ratSqrt ((40:ℚ) * 40) = 40 ∧ 1 ≤ 4) ∧
      ∃ a2 b2 : Node,
        (List.range 4).foldl (fun ns _ => spacingPass ratSqrt 40 ns)
            [fxNode "A" "location" 0 0, fxNode "B" "location" 30 0] = [a2, b2]
          ∧ 40 * 40 ≤ sqDist a2 b2 :=
  ⟨⟨by norm_num, by decide, by decide, by decide, by norm_num⟩,
   spacing_two_nodes_min_distance ratSqrt 40 (fxNode "A" "location" 0 0)
     (fxNode "B" "location" 30 0) 4 (by norm_num) (by decide) (by decide)
     (by decide) (by norm_num)⟩

/-- C4 counterexample: with every type toggle off and no search term the
visible set is empty, yet a run still moves the dj-primary node — the
layout set keeps dj nodes regardless of their toggle, so the run is not a
no-op (the node travels from (-1, 3) to the clamp corner (40, 40)). -/
theorem empty_visible_set_run_moves_dj_cex :
    visibleNodes c4st = [] ∧
      c4st.nodes.map (fun n => (n.x, n.y)) = [(-1, 3)] ∧
      c4run.nodes.map (fun n => (n.x, n.y)) = [(40, 40)] := by
  refine ⟨by decide, by decide, by decide⟩

/-- C6 counterexample: visible artist `A` with one edge to the toggled-off
location `B` and one dangling edge: the run's degree for `A` is 2, its
visible-subgraph incident count is 0. -/
theorem degree_ignores_visibility_cex :
    (∃ n ∈ c6st.nodes, n.id = "A" ∧ isNodeVisible c6st n = true) ∧
      degreeMap c6st.connections ((layoutNodesOf c6st).map (fun n => n.id)) "A" = 2 ∧
      visibleIncidentCount c6st "A" = 0 := by
  refine ⟨by decide, by decide, by decide⟩

end MusicNetwork
